import Mathlib

/-!
# Verification of the census_visualization pipeline

Shallow embedding, in Lean 4, of the join / color-mapping / boundary-optimization
logic of the `census_visualization` repository, together with theorems settling
the specification claims about it.

Conventions of the embedding:
* pandas / polars data frames become Lean `List`s of records (structures);
* Python strings become `String`, machine floats become `ℚ` (the computations at
  stake are exact decimal arithmetic; the one genuinely floating-point effect,
  `0/0 = NaN` during normalization, is modelled by `Option ℚ` with `none` for NaN);
* Python `int()` truncation becomes `pyInt`, Python `round` (half-to-even) becomes
  `pyRound`, `str.zfill` becomes `zfill`;
* the filesystem that the boundary loaders probe becomes an explicit `FS` value;
* a Python exception escaping a function becomes `Except.error`; an exception
  caught by a `try/except` that prints and returns early becomes a normal result.
-/

namespace CensusViz

/-! ## Digit strings and composite keys

`download_census_data.py` builds the census-side key
`puma_full_id = state_fips.zfill(2) + puma_code.zfill(5)` (string concatenation);
`final_puma_map.py` / `ultra_optimize_boundaries.py` build the boundary-side key
`PUMA_FULL_INT = int(STATEFP10 + PUMACE10)`.
-/

/-- Numeric value of a list of decimal digit characters, most significant first:
the digit-accumulation that Python `int(s)` performs on a digit string. -/
def natOfDigits (cs : List Char) : Nat :=
  cs.foldl (fun acc c => acc * 10 + (c.toNat - 48)) 0

/-- Python `int(s)` on a decimal digit string. -/
def toNatDigits (s : String) : Nat :=
  natOfDigits s.data

/-- Python `str.zfill(n)`: left-pad with `'0'` to width `n` (no-op when already
at least that wide). -/
def zfill (n : Nat) (s : String) : String :=
  if s.length < n then String.mk (List.replicate (n - s.length) '0') ++ s else s

/-- Every character of the string is a decimal digit. -/
def IsDigitString (s : String) : Prop :=
  ∀ c ∈ s.data, c.isDigit

instance (s : String) : Decidable (IsDigitString s) := by
  unfold IsDigitString; infer_instance

/-- Boundary-side composite key, from `ultra_optimize_boundaries.py` line 113 and
`final_puma_map.py` line 79:
`PUMA_FULL_INT = (STATEFP10 + PUMACE10).astype(int)` — string concatenation of the
2-digit state FIPS and the 5-digit PUMA code, then integer conversion. -/
def PUMA_FULL_INT (statefp10 pumace10 : String) : Nat :=
  toNatDigits (statefp10 ++ pumace10)

/-- Census-side composite key string, from `download_census_data.py` lines 63-67:
`puma_full_id = state.zfill(2) + puma.zfill(5)`. -/
def puma_full_id (state puma : String) : String :=
  zfill 2 state ++ zfill 5 puma

/-- The census-side key in the integer representation under which the join
compares it (the CSV round-trip reads the digit string back as an integer). -/
def puma_full_id_int (state puma : String) : Nat :=
  toNatDigits (puma_full_id state puma)

/-! ## Records and the join-and-filter of `prepare_map_data`

`streamlit_app.py` lines 140-151 and `scripts/streamlit_app_unified.py` lines
449-451: left-merge the boundary frame with the census frame on
`PUMA_FULL_INT = puma_full_id`, `fillna(0)` the selected column, then keep only
rows with a strictly positive value.
-/

/-- One row of a boundary artifact, as the dashboards consume it. -/
structure BoundaryRow where
  PUMA_FULL_INT : Nat
  STATEFP10 : String
  NAMELSAD10 : String
deriving DecidableEq, Repr

/-- One row of a census table restricted to the selected metric column.
`value = none` models a NaN entry in that column. -/
structure CensusRow where
  puma_full_id : Nat
  value : Option ℚ
deriving DecidableEq, Repr

/-- One row of the joined map frame after `fillna(0)`. -/
structure MapRow where
  boundary : BoundaryRow
  value : ℚ
deriving DecidableEq, Repr

/-- Pandas left merge on `PUMA_FULL_INT = puma_full_id`: each boundary row is
paired with every matching census row, or with a missing (NaN) value when no
census row matches. -/
def mergeLeft (bs : List BoundaryRow) (cs : List CensusRow) :
    List (BoundaryRow × Option ℚ) :=
  bs.flatMap fun b =>
    match cs.filter (fun c => c.puma_full_id == b.PUMA_FULL_INT) with
    | [] => [(b, none)]
    | ms => ms.map fun c => (b, c.value)

/-- `prepare_map_data`, join-and-filter part: merge, `fillna(0)`, keep rows with
value `> 0`. -/
def prepare_map_data (bs : List BoundaryRow) (cs : List CensusRow) : List MapRow :=
  ((mergeLeft bs cs).map fun p => MapRow.mk p.1 (p.2.getD 0)).filter
    fun r => decide (0 < r.value)

/-! ## Normalization of the value column

`streamlit_app.py` lines 182-193 and `scripts/streamlit_app_unified.py` lines
462-468: `normalized = (col - col.min()) / (col.max() - col.min())`.
When `max = min` every numerator and the denominator are zero and the float
division yields NaN for every row; `none` models that NaN.
-/

/-- Pandas `Series.min()`: `none` on an empty column. -/
def colMin : List ℚ → Option ℚ
  | [] => none
  | v :: vs => some (vs.foldl min v)

/-- Pandas `Series.max()`: `none` on an empty column. -/
def colMax : List ℚ → Option ℚ
  | [] => none
  | v :: vs => some (vs.foldl max v)

/-- The normalized column `(v - min) / (max - min)` computed over a value list;
`none` models the NaN produced when the value range is degenerate. -/
def normalizeColumn (vals : List ℚ) : List (Option ℚ) :=
  match colMin vals, colMax vals with
  | some mn, some mx =>
      vals.map fun v => if mx - mn = 0 then none else some ((v - mn) / (mx - mn))
  | _, _ => []

/-! ## Color interpolation

`scripts/streamlit_app_unified.py` lines 395-401:
```
def interpolate_color(value, palette):
    n = len(palette) - 1
    idx = value * n
    lower_idx = int(idx)
    upper_idx = min(lower_idx + 1, n)
    t = idx - lower_idx
    return tuple(int(palette[lower_idx][i] * (1-t) + palette[upper_idx][i] * t)
                 for i in range(3))
```
-/

/-- Python `int()` on a float: truncation toward zero. -/
def pyInt (x : ℚ) : ℤ :=
  if 0 ≤ x then ⌊x⌋ else -⌊-x⌋

/-- An RGB color stop: one three-channel palette entry. -/
structure RGB where
  r : ℤ
  g : ℤ
  b : ℤ
deriving DecidableEq, Repr

/-- Default color used for out-of-range palette access in the embedding (never
reached for `0 ≤ value ≤ 1` and a nonempty palette, see C10). -/
def rgbZero : RGB := RGB.mk 0 0 0

/-- `lower_idx = int(value * n)` where `n = len(palette) - 1`. -/
def lowerIdx (value : ℚ) (n : ℕ) : ℕ :=
  (pyInt (value * n)).toNat

/-- `upper_idx = min(lower_idx + 1, n)`. -/
def upperIdx (value : ℚ) (n : ℕ) : ℕ :=
  min (lowerIdx value n + 1) n

/-- `t = idx - lower_idx`. -/
def tFrac (value : ℚ) (n : ℕ) : ℚ :=
  value * n - (pyInt (value * n) : ℚ)

/-- The color interpolation of `streamlit_app_unified.py`. -/
def interpolate_color (value : ℚ) (palette : List RGB) : RGB :=
  let n := palette.length - 1
  let lower := palette.getD (lowerIdx value n) rgbZero
  let upper := palette.getD (upperIdx value n) rgbZero
  let t := tFrac value n
  RGB.mk (pyInt ((lower.r : ℚ) * (1 - t) + (upper.r : ℚ) * t))
         (pyInt ((lower.g : ℚ) * (1 - t) + (upper.g : ℚ) * t))
         (pyInt ((lower.b : ℚ) * (1 - t) + (upper.b : ℚ) * t))

/-- The inline channel formulas of `streamlit_app.py` lines 190-193:
`(254 - normalized * coeff).astype(int)` with `coeff` 37 (red), 135 (green) and
248 (blue) — a white-to-orange gradient from stop `(254, 254, 254)` down to
`(217, 119, 6)`. -/
def inlineChannel (coeff : ℤ) (norm : ℚ) : ℤ :=
  pyInt (254 - norm * coeff)

/-- The dark-theme palette of `streamlit_app_unified.py`. -/
def PALETTE_DARK : List RGB :=
  [RGB.mk 30 58 138, RGB.mk 59 130 246, RGB.mk 34 211 238,
   RGB.mk 74 222 128, RGB.mk 250 204 21]

/-- The light-theme palette of `streamlit_app_unified.py`. -/
def PALETTE_LIGHT : List RGB :=
  [RGB.mk 255 243 224, RGB.mk 255 204 128, RGB.mk 255 152 0,
   RGB.mk 245 124 0, RGB.mk 230 81 0]

/-! ## Geometry and the boundary optimizers

`scripts/ultra_optimize_boundaries.py` (lines 62-132): aggressive simplify,
`remove_holes` (drop every interior ring; in multipolygons also drop parts of
area `≤ 1e-5`, falling back to the original geometry when nothing survives),
column pruning, integer key fields, CRS, and 3-decimal coordinate rounding.
`scripts/moderate_optimize_boundaries.py` (lines 43-103): moderate simplify,
`remove_small_holes` (drop interior rings of area `≤ 0.001`), 5-decimal
rounding, column pruning.
-/

/-- A ring of coordinates (shapely `LinearRing`), closed cyclically. -/
abbrev LinearRing := List (ℚ × ℚ)

/-- The geometries the optimizers traverse. `gnone` models Python `None`. -/
inductive Geometry where
  | gnone : Geometry
  | polygon (exterior : LinearRing) (interiors : List LinearRing) : Geometry
  | multipolygon (polys : List (LinearRing × List LinearRing)) : Geometry
deriving DecidableEq, Repr

/-- Twice the signed area of a ring (shoelace sum over cyclically consecutive
vertex pairs). -/
def shoelace (r : LinearRing) : ℚ :=
  ((r.zip (r.rotate 1)).map fun pq => pq.1.1 * pq.2.2 - pq.2.1 * pq.1.2).sum

/-- Shapely ring area: absolute shoelace sum halved. -/
def ringArea (r : LinearRing) : ℚ :=
  |shoelace r| / 2

/-- Shapely polygon area: exterior area minus the interior-ring areas. -/
def polyArea (p : LinearRing × List LinearRing) : ℚ :=
  ringArea p.1 - (p.2.map ringArea).sum

/-- `geom is None or geom.is_empty`. -/
def isEmptyG : Geometry → Bool
  | .gnone => true
  | .polygon ext _ => ext.isEmpty
  | .multipolygon ps => ps.isEmpty

/-- The multipolygon branch of `remove_holes`: keep the exteriors of the parts
of area `> 1e-5` (`cleaned`); when no part survives return the original
geometry, and return a single surviving part as a plain polygon. -/
def remove_holes_multi (polys : List (LinearRing × List LinearRing)) : Geometry :=
  match (polys.filter fun p => decide (polyArea p > 1 / 100000)).map
      (fun p => (p.1, ([] : List LinearRing))) with
  | [] => .multipolygon polys
  | [c] => .polygon c.1 c.2
  | cleaned => .multipolygon cleaned

/-- `remove_holes` of `ultra_optimize_boundaries.py`: a polygon keeps only its
exterior; a multipolygon is handled by `remove_holes_multi`. -/
def remove_holes (geom : Geometry) : Geometry :=
  if isEmptyG geom then geom
  else
    match geom with
    | .gnone => geom
    | .polygon ext _ => .polygon ext []
    | .multipolygon polys => remove_holes_multi polys

/-- `remove_small_holes` of `moderate_optimize_boundaries.py`: on a polygon
with interior rings, keep only the rings of area `> 0.001`; anything else
(including multipolygons, which carry no `interiors` attribute) is returned
unchanged. -/
def remove_small_holes (geom : Geometry) : Geometry :=
  match geom with
  | .polygon ext holes =>
    if holes.isEmpty then geom
    else
      let largeHoles := holes.filter fun h => decide (ringArea h > 1 / 1000)
      if largeHoles = holes then geom else .polygon ext largeHoles
  | g => g

/-- Python `round()` on a float-valued rational: round half to even. -/
def pyRound (x : ℚ) : ℤ :=
  if x - ⌊x⌋ < 1 / 2 then ⌊x⌋
  else if 1 / 2 < x - ⌊x⌋ then ⌊x⌋ + 1
  else if 2 ∣ ⌊x⌋ then ⌊x⌋ else ⌊x⌋ + 1

/-- `round(x, prec)`. -/
def roundTo (prec : ℕ) (x : ℚ) : ℚ :=
  (pyRound (x * 10 ^ prec) : ℚ) / 10 ^ prec

/-- Coordinate rounding over one ring. -/
def roundRing (prec : ℕ) (r : LinearRing) : LinearRing :=
  r.map fun q => (roundTo prec q.1, roundTo prec q.2)

/-- `shapely.ops.transform(round_coords, geom)`. -/
def roundGeometry (prec : ℕ) : Geometry → Geometry
  | .gnone => .gnone
  | .polygon ext holes =>
    .polygon (roundRing prec ext) (holes.map (roundRing prec))
  | .multipolygon ps =>
    .multipolygon (ps.map fun p => (roundRing prec p.1, p.2.map (roundRing prec)))

/-- Every polygon composing the geometry has zero interior rings. -/
def holeFree : Geometry → Bool
  | .gnone => true
  | .polygon _ ints => ints.isEmpty
  | .multipolygon ps => ps.all fun p => p.2.isEmpty

/-- One record of the combined boundary frame the optimizers transform.
`extra` stands for the non-essential attribute columns that pruning drops;
`pumaFullInt` is the integer key column added by the ultra optimizer. -/
structure PumaRow where
  STATEFP10 : String
  PUMACE10 : String
  NAMELSAD10 : String
  geometry : Geometry
  extra : List (String × String)
  pumaFullInt : Option Nat

/-- `df['geometry'] = df['geometry'].simplify(...)`: the topology-preserving
simplification is a shapely call applied to each row's geometry; it is kept
abstract as `simplifyFn`. -/
def simplifyStep (simplifyFn : Geometry → Geometry) (rows : List PumaRow) :
    List PumaRow :=
  rows.map fun r => { r with geometry := simplifyFn r.geometry }

/-- `df['geometry'].apply(remove_holes)`. -/
def removeHolesStep (rows : List PumaRow) : List PumaRow :=
  rows.map fun r => { r with geometry := remove_holes r.geometry }

/-- `df['geometry'].apply(remove_small_holes)`. -/
def removeSmallHolesStep (rows : List PumaRow) : List PumaRow :=
  rows.map fun r => { r with geometry := remove_small_holes r.geometry }

/-- `df = df[essential_columns]`: attribute-column pruning. -/
def pruneColumnsStep (rows : List PumaRow) : List PumaRow :=
  rows.map fun r => { r with extra := [] }

/-- `df['PUMA_FULL_INT'] = (df['STATEFP10'] + df['PUMACE10']).astype(int)`. -/
def addIntFieldsStep (rows : List PumaRow) : List PumaRow :=
  rows.map fun r =>
    { r with pumaFullInt := some (PUMA_FULL_INT r.STATEFP10 r.PUMACE10) }

/-- `df['geometry'].apply(round_coords)`. -/
def roundStep (prec : ℕ) (rows : List PumaRow) : List PumaRow :=
  rows.map fun r => { r with geometry := roundGeometry prec r.geometry }

/-- The whole transformation of `create_ultra_optimized_boundaries` (steps 1-6;
the CRS reprojection, a per-row library call, is identity in this embedding). -/
def create_ultra_optimized_boundaries (simplifyFn : Geometry → Geometry)
    (rows : List PumaRow) : List PumaRow :=
  roundStep 3 (addIntFieldsStep (pruneColumnsStep
    (removeHolesStep (simplifyStep simplifyFn rows))))

/-- The whole transformation of `moderate_optimize_boundaries` (steps 1-4). -/
def moderate_optimize_transform (simplifyFn : Geometry → Geometry)
    (rows : List PumaRow) : List PumaRow :=
  pruneColumnsStep (roundStep 5
    (removeSmallHolesStep (simplifyStep simplifyFn rows)))

/-- A tiny square part (side `1/1000`, polygon area below the `1e-5`
threshold) carrying one interior ring. -/
def tinyHoledPart : LinearRing × List LinearRing :=
  ([(0, 0), (1/1000, 0), (1/1000, 1/1000), (0, 1/1000)],
   [[(1/10000, 1/10000), (2/10000, 1/10000), (1/10000, 2/10000)]])

/-- The multipolygon used as C7's counterexample: its single part is below the
area threshold and carries a hole. -/
def tinyHoledMultipolygon : Geometry :=
  Geometry.multipolygon [tinyHoledPart]

/-! ## Boundary artifact loaders

`streamlit_app.py` `load_boundaries` (lines 86-130) probes, in priority order,
the moderate, combined ("standard") and ultra-optimized artifacts, then filters
the loaded frame to continental-US state FIPS codes.
`scripts/streamlit_app_unified.py` `load_boundaries` (lines 404-429) first
serves a pickle cache verbatim, otherwise probes `fast.json`, `moderate.gpkg`,
`optimized.gpkg` (no combined artifact in its list) and filters to continental
states only when the frame carries a `STATEFP10` column.
-/

def moderatePath : String := "data/puma_boundaries_moderate.gpkg"

def combinedPath : String := "data/puma_boundaries_combined.gpkg"

def optimizedPath : String := "data/puma_boundaries_optimized.gpkg"

def fastPath : String := "data/puma_boundaries_fast.json"

/-- `[str(i).zfill(2) for i in range(1, 57) if i not in [2, 15]]`. -/
def continentalStates : List String :=
  ((List.range' 1 56).filter (fun i => i != 2 && i != 15)).map
    (fun i => zfill 2 (toString i))

/-- A boundary artifact on disk: whether its frame carries the `STATEFP10`
column, and its rows. -/
structure BFile where
  hasStateCol : Bool
  rows : List BoundaryRow
deriving DecidableEq

/-- The filesystem state the loaders probe: which artifact paths hold which
file, and the unified app's pickle cache content (if present). -/
structure FS where
  file : String → Option BFile
  cache : Option (List BoundaryRow)

/-- `boundaries[boundaries['STATEFP10'].isin(continental_states)]`. -/
def contFilter (rows : List BoundaryRow) : List BoundaryRow :=
  rows.filter fun r => continentalStates.contains r.STATEFP10

/-- `load_boundaries` of `streamlit_app.py`: moderate, then combined, then
ultra-optimized; the selected frame is always filtered to continental states
(a frame without the `STATEFP10` column makes that line raise, which the
surrounding `try/except` turns into a `None` return). Returns the selected
path together with the rows it yields. -/
def load_boundaries_app (fs : FS) : Option (String × List BoundaryRow) :=
  match fs.file moderatePath with
  | some f => if f.hasStateCol then some (moderatePath, contFilter f.rows) else none
  | none =>
    match fs.file combinedPath with
    | some f => if f.hasStateCol then some (combinedPath, contFilter f.rows) else none
    | none =>
      match fs.file optimizedPath with
      | some f =>
        if f.hasStateCol then some (optimizedPath, contFilter f.rows) else none
      | none => none

/-- The `for fp in [...]: if os.path.exists(fp)` probe of the unified loader:
first existing candidate path. -/
def firstExisting (fs : FS) : List String → Option (String × BFile)
  | [] => none
  | p :: ps =>
    match fs.file p with
    | some f => some (p, f)
    | none => firstExisting fs ps

/-- `load_boundaries` of `scripts/streamlit_app_unified.py`: cache first and
verbatim; otherwise the first existing of `fast.json`, `moderate.gpkg`,
`optimized.gpkg`, filtered to continental states only when the frame has a
`STATEFP10` column. -/
def load_boundaries_unified (fs : FS) : Option (String × List BoundaryRow) :=
  match fs.cache with
  | some rows => some ("cache", rows)
  | none =>
    match firstExisting fs [fastPath, moderatePath, optimizedPath] with
    | some (p, f) => some (p, if f.hasStateCol then contFilter f.rows else f.rows)
    | none => none

/-- Filesystem state in which the only artifact on disk is the combined one. -/
def fsCombinedOnly : FS :=
  FS.mk (fun p => if p = combinedPath then some (BFile.mk true []) else none) none

/-- A boundary row for an Alaska PUMA (state FIPS 02). -/
def alaskaRow : BoundaryRow :=
  BoundaryRow.mk 200101 "02" "Alaska PUMA"

/-- Filesystem state with no artifact files but a cache holding an Alaska row
(for example written by an earlier run from a file without `STATEFP10`). -/
def fsStaleCache : FS :=
  FS.mk (fun _ => none) (some [alaskaRow])

/-- Filesystem state where only the moderate artifact exists, holding one
continental (California) row and one Alaska row. -/
def fsModerateMixed : FS :=
  FS.mk
    (fun p => if p = moderatePath
      then some (BFile.mk true [BoundaryRow.mk 600101 "06" "CA", alaskaRow])
      else none)
    none

/-! ## Error-handling control flow

`moderate_optimize_boundaries.py` wraps only the input load (lines 30-36) and
the final save (lines 109-129) in `try/except`; the transformation steps in
between (lines 43-103) run outside any handler. `download_census_data.py`
wraps the whole query-and-process body (lines 39-101) in one `try/except`
returning `None`; the `os.makedirs` call (line 25) precedes the handler.
An `Except.error` result models a Python exception escaping the operation;
`Except.ok` models a normal (early) return after a caught, printed failure.
-/

/-- The fallible operations `moderate_optimize_boundaries` invokes, each
modelling a library call that may raise. -/
structure ModerateEnv where
  inputExists : Bool
  load : Except String (List PumaRow)
  simplifyOp : List PumaRow → Except String (List PumaRow)
  holesOp : List PumaRow → Except String (List PumaRow)
  roundOp : List PumaRow → Except String (List PumaRow)
  pruneOp : List PumaRow → Except String (List PumaRow)
  save : List PumaRow → Except String Unit

/-- The control flow of `moderate_optimize_boundaries`: missing input and a
failing load are caught and turn into an early plain return; the four
transformation steps run bare, so their failures propagate; a failing save is
caught again. The function itself never returns a value. -/
def moderate_optimize_boundaries_run (env : ModerateEnv) : Except String Unit :=
  if !env.inputExists then Except.ok ()
  else
    match env.load with
    | .error _ => Except.ok ()
    | .ok b =>
      match env.simplifyOp b with
      | .error e => Except.error e
      | .ok b1 =>
        match env.holesOp b1 with
        | .error e => Except.error e
        | .ok b2 =>
          match env.roundOp b2 with
          | .error e => Except.error e
          | .ok b3 =>
            match env.pruneOp b3 with
            | .error e => Except.error e
            | .ok b4 =>
              match env.save b4 with
              | .error _ => Except.ok ()
              | .ok _ => Except.ok ()

/-- The fallible operations of `download_census_puma_data`: directory creation
(before the handler) and the query-and-process body (inside it). -/
structure DownloadEnv where
  makedirs : Except String Unit
  queryAndProcess : Except String (List CensusRow)

/-- The control flow of `download_census_puma_data`: any failure inside the
`try` body is caught, printed and converted to a `None` return; a `makedirs`
failure precedes the handler and propagates. -/
def download_census_puma_data_run (env : DownloadEnv) :
    Except String (Option (List CensusRow)) :=
  match env.makedirs with
  | .error e => Except.error e
  | .ok _ =>
    match env.queryAndProcess with
    | .error _ => Except.ok none
    | .ok d => Except.ok (some d)

/-- Environment in which the boundary load succeeds but the simplification
step raises. -/
def modEnvSimplifyFails : ModerateEnv :=
  ModerateEnv.mk true (Except.ok []) (fun _ => Except.error "simplify failed")
    (fun b => Except.ok b) (fun b => Except.ok b) (fun b => Except.ok b)
    (fun _ => Except.ok ())

/-- Environment in which everything succeeds up to a failing save. -/
def modEnvSaveFails : ModerateEnv :=
  ModerateEnv.mk true (Except.ok []) (fun b => Except.ok b)
    (fun b => Except.ok b) (fun b => Except.ok b) (fun b => Except.ok b)
    (fun _ => Except.error "save failed")

/-- Environment in which the census query raises. -/
def dlEnvQueryFails : DownloadEnv :=
  DownloadEnv.mk (Except.ok ()) (Except.error "API rate limit")

/-! ## Helper lemmas -/

theorem natOfDigits_append_aux (cs : List Char) (a : Nat) :
    cs.foldl (fun acc c => acc * 10 + (c.toNat - 48)) a
      = a * 10 ^ cs.length + natOfDigits cs := by
  induction cs generalizing a with
  | nil => simp [natOfDigits]
  | cons c cs ih =>
    simp only [List.foldl_cons, List.length_cons, natOfDigits]
    rw [ih (a * 10 + (c.toNat - 48)), ih (0 * 10 + (c.toNat - 48))]
    ring

theorem natOfDigits_append (cs ds : List Char) :
    natOfDigits (cs ++ ds) = natOfDigits cs * 10 ^ ds.length + natOfDigits ds := by
  unfold natOfDigits
  rw [List.foldl_append]
  exact natOfDigits_append_aux ds _

theorem toNatDigits_append (s p : String) :
    toNatDigits (s ++ p) = toNatDigits s * 10 ^ p.length + toNatDigits p := by
  unfold toNatDigits
  rw [String.data_append, natOfDigits_append]
  rfl

theorem zfill_of_length_ge (n : Nat) (s : String) (h : n ≤ s.length) :
    zfill n s = s := by
  unfold zfill
  rw [if_neg (by omega)]

theorem foldl_min_le_init (vs : List ℚ) (a : ℚ) : vs.foldl min a ≤ a := by
  induction vs generalizing a with
  | nil => exact le_refl a
  | cons v vs ih => exact le_trans (ih (min a v)) (min_le_left a v)

theorem foldl_min_le_of_mem (vs : List ℚ) (a x : ℚ) (hx : x ∈ vs) :
    vs.foldl min a ≤ x := by
  induction vs generalizing a with
  | nil => cases hx
  | cons v vs ih =>
    rcases List.mem_cons.mp hx with h | h
    · subst h
      exact le_trans (foldl_min_le_init vs (min a x)) (min_le_right a x)
    · exact ih (min a v) h

theorem init_le_foldl_max (vs : List ℚ) (a : ℚ) : a ≤ vs.foldl max a := by
  induction vs generalizing a with
  | nil => exact le_refl a
  | cons v vs ih => exact le_trans (le_max_left a v) (ih (max a v))

theorem le_foldl_max_of_mem (vs : List ℚ) (a x : ℚ) (hx : x ∈ vs) :
    x ≤ vs.foldl max a := by
  induction vs generalizing a with
  | nil => cases hx
  | cons v vs ih =>
    rcases List.mem_cons.mp hx with h | h
    · subst h
      exact le_trans (le_max_right a x) (init_le_foldl_max vs (max a x))
    · exact ih (max a v) h

theorem colMin_le_of_mem (vals : List ℚ) (mn : ℚ) (h : colMin vals = some mn) :
    ∀ x ∈ vals, mn ≤ x := by
  cases vals with
  | nil => cases h
  | cons v vs =>
    intro x hx
    have hmn : vs.foldl min v = mn := by
      simpa [colMin] using h
    rcases List.mem_cons.mp hx with hxv | hxv
    · subst hxv
      exact hmn ▸ foldl_min_le_init vs x
    · exact hmn ▸ foldl_min_le_of_mem vs v x hxv

theorem le_colMax_of_mem (vals : List ℚ) (mx : ℚ) (h : colMax vals = some mx) :
    ∀ x ∈ vals, x ≤ mx := by
  cases vals with
  | nil => cases h
  | cons v vs =>
    intro x hx
    have hmx : vs.foldl max v = mx := by
      simpa [colMax] using h
    rcases List.mem_cons.mp hx with hxv | hxv
    · subst hxv
      exact hmx ▸ init_le_foldl_max vs x
    · exact hmx ▸ le_foldl_max_of_mem vs v x hxv

theorem pyInt_of_nonneg {x : ℚ} (h : 0 ≤ x) : pyInt x = ⌊x⌋ :=
  if_pos h

theorem pyInt_intCast (z : ℤ) : pyInt (z : ℚ) = z := by
  unfold pyInt
  by_cases h : (0 : ℚ) ≤ (z : ℚ)
  · rw [if_pos h, Int.floor_intCast]
  · rw [if_neg h, ← Int.cast_neg, Int.floor_intCast, neg_neg]

theorem pyInt_mono {x y : ℚ} (h : x ≤ y) : pyInt x ≤ pyInt y := by
  unfold pyInt
  by_cases hx : 0 ≤ x
  · rw [if_pos hx, if_pos (le_trans hx h)]
    exact Int.floor_le_floor h
  · rw [if_neg hx]
    by_cases hy : 0 ≤ y
    · rw [if_pos hy]
      have h1 : 0 ≤ ⌊-x⌋ := Int.floor_nonneg.mpr (by linarith)
      have h2 : 0 ≤ ⌊y⌋ := Int.floor_nonneg.mpr hy
      omega
    · rw [if_neg hy]
      have := Int.floor_le_floor (neg_le_neg h)
      omega

theorem lowerIdx_cast {v : ℚ} (n : ℕ) (h0 : 0 ≤ v) :
    ((lowerIdx v n : ℕ) : ℤ) = ⌊v * n⌋ := by
  unfold lowerIdx
  rw [pyInt_of_nonneg (by positivity)]
  exact Int.toNat_of_nonneg (Int.floor_nonneg.mpr (by positivity))

theorem lowerIdx_le {v : ℚ} (n : ℕ) (h0 : 0 ≤ v) (h1 : v ≤ 1) :
    lowerIdx v n ≤ n := by
  have hx : v * n ≤ (n : ℚ) := by
    nlinarith [@Nat.cast_nonneg ℚ _ n]
  have : ⌊v * (n : ℚ)⌋ ≤ (n : ℤ) := by
    have := Int.floor_le_floor hx
    simpa using this
  have hc := lowerIdx_cast n h0
  omega

theorem upperIdx_le (v : ℚ) (n : ℕ) : upperIdx v n ≤ n :=
  min_le_right _ _

theorem tFrac_eq {v : ℚ} (n : ℕ) (h0 : 0 ≤ v) :
    tFrac v n = v * n - ((lowerIdx v n : ℕ) : ℚ) := by
  unfold tFrac
  rw [pyInt_of_nonneg (by positivity)]
  have := lowerIdx_cast n h0
  rw [show ((lowerIdx v n : ℕ) : ℚ) = ((⌊v * n⌋ : ℤ) : ℚ) by exact_mod_cast congrArg (fun z : ℤ => (z : ℚ)) this]

theorem tFrac_nonneg {v : ℚ} (n : ℕ) (h0 : 0 ≤ v) : 0 ≤ tFrac v n := by
  rw [tFrac_eq n h0]
  have hc := lowerIdx_cast n h0
  have hfl := Int.floor_le (v * (n : ℚ))
  have hcast : ((lowerIdx v n : ℕ) : ℚ) = ((⌊v * n⌋ : ℤ) : ℚ) := by
    exact_mod_cast congrArg (fun z : ℤ => (z : ℚ)) hc
  rw [hcast]
  linarith

theorem tFrac_lt_one {v : ℚ} (n : ℕ) (h0 : 0 ≤ v) : tFrac v n < 1 := by
  rw [tFrac_eq n h0]
  have hc := lowerIdx_cast n h0
  have := Int.lt_floor_add_one (v * (n : ℚ))
  have hcast : ((lowerIdx v n : ℕ) : ℚ) = ((⌊v * n⌋ : ℤ) : ℚ) := by
    exact_mod_cast congrArg (fun z : ℤ => (z : ℚ)) hc
  rw [hcast]
  linarith

theorem pyInt_between {lo hi : ℤ} {x : ℚ} (hlo : (lo : ℚ) ≤ x) (hhi : x ≤ (hi : ℚ)) :
    lo ≤ pyInt x ∧ pyInt x ≤ hi := by
  constructor
  · have h := pyInt_mono hlo
    rwa [pyInt_intCast] at h
  · have h := pyInt_mono hhi
    rwa [pyInt_intCast] at h

theorem getD_length_sub_one (l : List RGB) (d : RGB) (h : l ≠ []) :
    l.getD (l.length - 1) d = l.getLastD d := by
  induction l with
  | nil => exact absurd rfl h
  | cons p ps ih =>
    cases ps with
    | nil => rfl
    | cons q rest =>
      have h1 : (p :: q :: rest).length - 1 = ((q :: rest).length - 1) + 1 := by
        simp only [List.length_cons]
        omega
      rw [h1, List.getD_cons_succ, ih (by simp)]
      rw [List.getLastD_eq_getLast?, List.getLastD_eq_getLast?]
      rw [List.getLast?_cons_cons]

/-- Each channel of `interpolate_color` is the truncated linear blend between
the lower and upper stop of that channel. -/
theorem interp_channel_eq (v : ℚ) (pal : List RGB) (ch : RGB → ℤ)
    (hch : ch = RGB.r ∨ ch = RGB.g ∨ ch = RGB.b) :
    ch (interpolate_color v pal)
      = pyInt ((ch (pal.getD (lowerIdx v (pal.length - 1)) rgbZero) : ℚ)
            * (1 - tFrac v (pal.length - 1))
          + (ch (pal.getD (upperIdx v (pal.length - 1)) rgbZero) : ℚ)
            * tFrac v (pal.length - 1)) := by
  rcases hch with h | h | h <;> subst h <;> rfl

/-- Monotonicity of the raw (pre-truncation) linear blend, for any channel
assignment `a` that is monotone on the stop indices `0..n`. -/
theorem linInterp_mono (a : ℕ → ℤ) (n : ℕ)
    (hmono : ∀ i j, i ≤ j → j ≤ n → a i ≤ a j)
    (v₁ v₂ : ℚ) (h0 : 0 ≤ v₁) (h12 : v₁ ≤ v₂) (h1 : v₂ ≤ 1) :
    (a (lowerIdx v₁ n) : ℚ) * (1 - tFrac v₁ n) + (a (upperIdx v₁ n) : ℚ) * tFrac v₁ n
      ≤ (a (lowerIdx v₂ n) : ℚ) * (1 - tFrac v₂ n)
        + (a (upperIdx v₂ n) : ℚ) * tFrac v₂ n := by
  have h0₂ : 0 ≤ v₂ := le_trans h0 h12
  have h1₁ : v₁ ≤ 1 := le_trans h12 h1
  have hl₁n : lowerIdx v₁ n ≤ n := lowerIdx_le n h0 h1₁
  have hl₂n : lowerIdx v₂ n ≤ n := lowerIdx_le n h0₂ h1
  have hu₁n : upperIdx v₁ n ≤ n := upperIdx_le _ _
  have hu₂n : upperIdx v₂ n ≤ n := upperIdx_le _ _
  have hl₁u : lowerIdx v₁ n ≤ upperIdx v₁ n := le_min (Nat.le_succ _) hl₁n
  have hl₂u : lowerIdx v₂ n ≤ upperIdx v₂ n := le_min (Nat.le_succ _) hl₂n
  have ht₁0 : 0 ≤ tFrac v₁ n := tFrac_nonneg n h0
  have ht₁1 : tFrac v₁ n < 1 := tFrac_lt_one n h0
  have ht₂0 : 0 ≤ tFrac v₂ n := tFrac_nonneg n h0₂
  have ht₂1 : tFrac v₂ n < 1 := tFrac_lt_one n h0₂
  have hx12 : v₁ * (n : ℚ) ≤ v₂ * (n : ℚ) := by
    nlinarith [@Nat.cast_nonneg ℚ _ n]
  have hll : lowerIdx v₁ n ≤ lowerIdx v₂ n := by
    have hfl := Int.floor_le_floor hx12
    have c₁ := @lowerIdx_cast v₁ n h0
    have c₂ := @lowerIdx_cast v₂ n h0₂
    omega
  have hAB₁ : (a (lowerIdx v₁ n) : ℚ) ≤ (a (upperIdx v₁ n) : ℚ) := by
    exact_mod_cast hmono _ _ hl₁u hu₁n
  have hAB₂ : (a (lowerIdx v₂ n) : ℚ) ≤ (a (upperIdx v₂ n) : ℚ) := by
    exact_mod_cast hmono _ _ hl₂u hu₂n
  rcases Nat.lt_or_ge (lowerIdx v₁ n) (lowerIdx v₂ n) with hlt | hge
  · -- the two values lie in different segments
    have hu₁e : upperIdx v₁ n = lowerIdx v₁ n + 1 :=
      min_eq_left (by omega)
    have hB₁A₂ : (a (lowerIdx v₁ n + 1) : ℚ) ≤ (a (lowerIdx v₂ n) : ℚ) := by
      exact_mod_cast hmono _ _ (by omega) hl₂n
    have hL : (a (lowerIdx v₁ n) : ℚ) * (1 - tFrac v₁ n)
        + (a (upperIdx v₁ n) : ℚ) * tFrac v₁ n ≤ (a (lowerIdx v₁ n + 1) : ℚ) := by
      rw [hu₁e] at hAB₁ ⊢
      nlinarith
    have hR : (a (lowerIdx v₂ n) : ℚ) ≤ (a (lowerIdx v₂ n) : ℚ) * (1 - tFrac v₂ n)
        + (a (upperIdx v₂ n) : ℚ) * tFrac v₂ n := by
      nlinarith
    linarith
  · -- same segment
    have heq : lowerIdx v₁ n = lowerIdx v₂ n := le_antisymm hll hge
    have hueq : upperIdx v₁ n = upperIdx v₂ n := by
      unfold upperIdx
      rw [heq]
    have ht12 : tFrac v₁ n ≤ tFrac v₂ n := by
      rw [tFrac_eq n h0, tFrac_eq n h0₂, heq]
      linarith
    rw [heq, hueq] at hAB₁ ⊢
    nlinarith

theorem lowerIdx_zero (n : ℕ) : lowerIdx 0 n = 0 := by
  unfold lowerIdx
  norm_num [pyInt]

theorem tFrac_zero (n : ℕ) : tFrac 0 n = 0 := by
  unfold tFrac
  norm_num [pyInt]

theorem lowerIdx_one (n : ℕ) : lowerIdx 1 n = n := by
  unfold lowerIdx
  rw [one_mul, pyInt_of_nonneg (Nat.cast_nonneg n), Int.floor_natCast,
    Int.toNat_natCast]

theorem tFrac_one (n : ℕ) : tFrac 1 n = 0 := by
  unfold tFrac
  rw [one_mul, pyInt_of_nonneg (Nat.cast_nonneg n), Int.floor_natCast]
  simp

theorem upperIdx_one (n : ℕ) : upperIdx 1 n = n := by
  unfold upperIdx
  rw [lowerIdx_one]
  exact min_eq_right (Nat.le_succ n)

theorem interpolate_color_zero (pal : List RGB) (hne : pal ≠ []) :
    interpolate_color 0 pal = pal.headD rgbZero := by
  obtain ⟨p, ps, rfl⟩ := List.exists_cons_of_ne_nil hne
  obtain ⟨pr, pg, pb⟩ := p
  simp [interpolate_color, lowerIdx_zero, tFrac_zero, pyInt_intCast]

theorem interpolate_color_one (pal : List RGB) (hne : pal ≠ []) :
    interpolate_color 1 pal = pal.getLastD rgbZero := by
  rw [← getD_length_sub_one pal rgbZero hne]
  simp [interpolate_color, lowerIdx_one, upperIdx_one, tFrac_one, pyInt_intCast]

/-- A pairwise relation that is reflexive holds between entries at any two
ordered in-range default-read positions. -/
theorem getD_rel_of_pairwise (pal : List RGB) (R : RGB → RGB → Prop)
    (hrefl : ∀ x, R x x) (hpw : pal.Pairwise R) (i j : ℕ)
    (hij : i ≤ j) (hj : j ≤ pal.length - 1) :
    R (pal.getD i rgbZero) (pal.getD j rgbZero) := by
  rcases Nat.eq_or_lt_of_le hij with rfl | hlt
  · exact hrefl _
  · cases pal with
    | nil =>
      exfalso
      simp only [List.length_nil] at hj
      omega
    | cons p ps =>
      have hjlen : j < (p :: ps).length := by
        simp only [List.length_cons] at hj ⊢
        omega
      have hilen : i < (p :: ps).length := lt_of_le_of_lt (le_of_lt hlt) hjlen
      rw [List.getD_eq_getElem _ _ hilen, List.getD_eq_getElem _ _ hjlen]
      exact List.pairwise_iff_getElem.mp hpw i j hilen hjlen hlt

/-- A linear blend of two channel values lies between any common bounds. -/
theorem convex_between {lo hi A B t : ℚ} (hA1 : lo ≤ A) (hA2 : A ≤ hi)
    (hB1 : lo ≤ B) (hB2 : B ≤ hi) (ht0 : 0 ≤ t) (ht1 : t ≤ 1) :
    lo ≤ A * (1 - t) + B * t ∧ A * (1 - t) + B * t ≤ hi := by
  constructor <;> nlinarith

/-- Monotone palettes yield monotone channels: the palette-level wrapper of
`linInterp_mono`. -/
theorem interpolate_color_mono_of_pairwise (pal : List RGB) (ch : RGB → ℤ)
    (hch : ch = RGB.r ∨ ch = RGB.g ∨ ch = RGB.b)
    (hpw : pal.Pairwise fun p q => ch p ≤ ch q)
    (v₁ v₂ : ℚ) (h0 : 0 ≤ v₁) (h12 : v₁ ≤ v₂) (h1 : v₂ ≤ 1) :
    ch (interpolate_color v₁ pal) ≤ ch (interpolate_color v₂ pal) := by
  rw [interp_channel_eq _ _ _ hch, interp_channel_eq _ _ _ hch]
  apply pyInt_mono
  apply linInterp_mono (fun i => ch (pal.getD i rgbZero)) (pal.length - 1)
    ?_ v₁ v₂ h0 h12 h1
  intro i j hij hj
  rcases Nat.eq_or_lt_of_le hij with rfl | hlt
  · exact le_refl _
  · cases pal with
    | nil =>
      exfalso
      simp only [List.length_nil] at hj
      omega
    | cons p ps =>
      have hjlen : j < (p :: ps).length := by
        simp only [List.length_cons] at hj ⊢
        omega
      have hilen : i < (p :: ps).length := lt_of_le_of_lt (le_of_lt hlt) hjlen
      simp only
      rw [List.getD_eq_getElem _ _ hilen, List.getD_eq_getElem _ _ hjlen]
      exact List.pairwise_iff_getElem.mp hpw i j hilen hjlen hlt

theorem firstExisting_spec (fs : FS) (ps : List String) (p : String) (f : BFile)
    (h : firstExisting fs ps = some (p, f)) : fs.file p = some f := by
  induction ps with
  | nil => cases h
  | cons q qs ih =>
    unfold firstExisting at h
    cases hq : fs.file q with
    | some g =>
      rw [hq] at h
      simp only [Option.some.injEq, Prod.mk.injEq] at h
      obtain ⟨rfl, rfl⟩ := h
      exact hq
    | none =>
      rw [hq] at h
      exact ih h

/-- Restricting a filter along a pointwise-stronger predicate: if every element
satisfying `p` also satisfies `q`, filtering by `p` factors through filtering
by `q`. -/
theorem filter_of_filter_subpred {α : Type} (p q : α → Bool) (l : List α)
    (h : ∀ x, p x = true → q x = true) :
    l.filter p = (l.filter q).filter p := by
  rw [List.filter_filter]
  apply List.filter_congr
  intro x _
  cases hp : p x with
  | false => simp
  | true => simp [h x hp]

/-- C1. For every zero-padded 2-digit state FIPS string `s` and zero-padded
5-digit PUMA string `p`, the boundary-side key `PUMA_FULL_INT` (concatenate, then
convert to an integer) equals `100000 * int(s) + int(p)`, and equals the
census-side key `puma_full_id` (zero-pad to 2 and 5 digits, concatenate, convert
to the same integer representation): both sides construct the identical integer
key for every (state, puma) pair. -/
theorem C1_composite_key_identical (s p : String)
    (_hs : IsDigitString s) (_hp : IsDigitString p)
    (hslen : s.length = 2) (hplen : p.length = 5) :
    PUMA_FULL_INT s p = 100000 * toNatDigits s + toNatDigits p ∧
    PUMA_FULL_INT s p = puma_full_id_int s p := by
  have hkey : PUMA_FULL_INT s p = 100000 * toNatDigits s + toNatDigits p := by
    unfold PUMA_FULL_INT
    rw [toNatDigits_append, hplen]
    ring
  refine ⟨hkey, ?_⟩
  unfold puma_full_id_int puma_full_id
  rw [zfill_of_length_ge 2 s (by omega), zfill_of_length_ge 5 p (by omega)]
  rfl

/-- Witness for C1 at the concrete pair (state `"06"`, PUMA `"00101"`):
both constructions yield the key 600101. -/
theorem C1_composite_key_identical_witness :
    PUMA_FULL_INT "06" "00101" = 100000 * toNatDigits "06" + toNatDigits "00101" ∧
    PUMA_FULL_INT "06" "00101" = puma_full_id_int "06" "00101" :=
  C1_composite_key_identical "06" "00101" (by decide) (by decide) (by decide) (by decide)

/-- C2. `prepare_map_data` left-joins boundaries to census rows on the composite
key, fills missing values with zero and drops non-positive rows. Consequently
(i) every row of every output has a strictly positive metric value, and (ii) for
a boundary set of two records with distinct keys and a census table whose rows
match exactly one of the two boundary keys — a single matching row, carrying a
positive value — the joined zero-filtered output has exactly one record. -/
theorem C2_prepare_map_data_join_filter :
    (∀ (bs : List BoundaryRow) (cs : List CensusRow),
      ∀ r ∈ prepare_map_data bs cs, 0 < r.value) ∧
    (∀ (b₁ b₂ : BoundaryRow) (cs : List CensusRow) (c : CensusRow) (v : ℚ),
      b₁.PUMA_FULL_INT ≠ b₂.PUMA_FULL_INT →
      cs.filter (fun x => x.puma_full_id == b₁.PUMA_FULL_INT
          || x.puma_full_id == b₂.PUMA_FULL_INT) = [c] →
      c.puma_full_id = b₁.PUMA_FULL_INT →
      c.value = some v →
      0 < v →
      (prepare_map_data [b₁, b₂] cs).length = 1) := by
  constructor
  · intro bs cs r hr
    have := List.of_mem_filter hr
    exact of_decide_eq_true this
  · intro b₁ b₂ cs c v hne hfilter hc hcv hv
    have h₁ : cs.filter (fun x => x.puma_full_id == b₁.PUMA_FULL_INT) = [c] := by
      rw [filter_of_filter_subpred _
        (fun x => x.puma_full_id == b₁.PUMA_FULL_INT
          || x.puma_full_id == b₂.PUMA_FULL_INT) cs (by intro x hx; simp_all),
        hfilter, List.filter_cons]
      simp [hc]
    have h₂ : cs.filter (fun x => x.puma_full_id == b₂.PUMA_FULL_INT) = [] := by
      rw [filter_of_filter_subpred _
        (fun x => x.puma_full_id == b₁.PUMA_FULL_INT
          || x.puma_full_id == b₂.PUMA_FULL_INT) cs (by intro x hx; simp_all),
        hfilter, List.filter_cons]
      have : (c.puma_full_id == b₂.PUMA_FULL_INT) = false := by
        simp [hc]
        exact hne
      simp [this]
    rw [prepare_map_data, mergeLeft]
    simp only [List.flatMap_cons, List.flatMap_nil, h₁, h₂, List.map_cons,
      List.map_nil, List.append_nil]
    simp [hcv, List.filter_cons, hv, decide_eq_true hv]

/-- Witness for C2 at a concrete two-record boundary set and one-row census
table: the output has exactly one record, and its value is positive. -/
theorem C2_prepare_map_data_join_filter_witness :
    (prepare_map_data
        [BoundaryRow.mk 600101 "06" "A", BoundaryRow.mk 600102 "06" "B"]
        [CensusRow.mk 600101 (some 50000)]).length = 1 ∧
    ∀ r ∈ prepare_map_data
        [BoundaryRow.mk 600101 "06" "A", BoundaryRow.mk 600102 "06" "B"]
        [CensusRow.mk 600101 (some 50000)], 0 < r.value := by
  constructor
  · exact C2_prepare_map_data_join_filter.2
      (BoundaryRow.mk 600101 "06" "A") (BoundaryRow.mk 600102 "06" "B")
      [CensusRow.mk 600101 (some 50000)] (CensusRow.mk 600101 (some 50000)) 50000
      (by decide) (by decide) rfl rfl (by norm_num)
  · exact C2_prepare_map_data_join_filter.1 _ _

/-- C5, counterexample to the claim as stated. On the single-record value column
`[5]` (a non-empty joined, zero-filtered set whose minimum equals its maximum)
the normalization `(v - min) / (max - min)` divides zero by zero: the output is
the NaN row `[none]`, not a value in `[0, 1]`, and in particular the minimum is
not mapped to `0` nor the maximum to `1`. -/
theorem C5_normalization_counterexample :
    normalizeColumn [(5 : ℚ)] = [none] := by
  norm_num [normalizeColumn, colMin, colMax]

/-- C5, amended. For every non-empty value column whose minimum is strictly
below its maximum, the linear normalization `(v - min) / (max - min)` applied by
`prepare_map_data` is well-defined on every row, maps every value into `[0, 1]`,
and maps the minimum to `0` and the maximum to `1`; when the remaining values
are all equal (`max = min`) the division is `0/0` and every normalized entry is
NaN instead. -/
theorem C5_normalization_range (vals : List ℚ) (mn mx : ℚ)
    (hmn : colMin vals = some mn) (hmx : colMax vals = some mx) (hlt : mn < mx) :
    normalizeColumn vals = vals.map (fun v => some ((v - mn) / (mx - mn))) ∧
    (∀ v ∈ vals, 0 ≤ (v - mn) / (mx - mn) ∧ (v - mn) / (mx - mn) ≤ 1) ∧
    (mn - mn) / (mx - mn) = 0 ∧
    (mx - mn) / (mx - mn) = 1 := by
  have hden : 0 < mx - mn := by linarith
  refine ⟨?_, ?_, ?_, ?_⟩
  · unfold normalizeColumn
    rw [hmn, hmx]
    apply List.map_congr_left
    intro v _
    rw [if_neg (by positivity)]
  · intro v hv
    constructor
    · apply div_nonneg _ (le_of_lt hden)
      have := colMin_le_of_mem vals mn hmn v hv
      linarith
    · rw [div_le_one hden]
      have := le_colMax_of_mem vals mx hmx v hv
      linarith
  · simp
  · exact div_self (ne_of_gt hden)

/-- Witness for C5 at the concrete column `[10, 30, 20]` (min 10, max 30). -/
theorem C5_normalization_range_witness :
    normalizeColumn [(10 : ℚ), 30, 20]
        = [(10 : ℚ), 30, 20].map (fun v => some ((v - 10) / (30 - 10))) ∧
    (∀ v ∈ [(10 : ℚ), 30, 20],
      0 ≤ (v - 10) / (30 - 10) ∧ (v - 10) / (30 - 10) ≤ 1) ∧
    ((10 : ℚ) - 10) / (30 - 10) = 0 ∧
    ((30 : ℚ) - 10) / (30 - 10) = 1 :=
  C5_normalization_range [(10 : ℚ), 30, 20] 10 30 (by rfl) (by rfl) (by norm_num)

/-- C3. `interpolate_color` returns exactly the first palette stop at normalized
value `0` and exactly the last stop at `1`; and on every palette whose channels
are monotone across the ordered stop list (in either direction), each output
channel is a monotone function (in the same direction) of the normalized value
on `[0, 1]`. -/
theorem C3_interpolate_color_endpoints_monotone (pal : List RGB) (hne : pal ≠ [])
    (ch : RGB → ℤ) (hch : ch = RGB.r ∨ ch = RGB.g ∨ ch = RGB.b) :
    interpolate_color 0 pal = pal.headD rgbZero ∧
    interpolate_color 1 pal = pal.getLastD rgbZero ∧
    ((pal.Pairwise fun p q => ch p ≤ ch q) →
      ∀ v₁ v₂ : ℚ, 0 ≤ v₁ → v₁ ≤ v₂ → v₂ ≤ 1 →
        ch (interpolate_color v₁ pal) ≤ ch (interpolate_color v₂ pal)) ∧
    ((pal.Pairwise fun p q => ch q ≤ ch p) →
      ∀ v₁ v₂ : ℚ, 0 ≤ v₁ → v₁ ≤ v₂ → v₂ ≤ 1 →
        ch (interpolate_color v₂ pal) ≤ ch (interpolate_color v₁ pal)) ∧
    (∀ coeff : ℤ, (coeff = 37 ∨ coeff = 135 ∨ coeff = 248) →
      inlineChannel coeff 0 = 254 ∧
      inlineChannel coeff 1 = 254 - coeff ∧
      ∀ v₁ v₂ : ℚ, v₁ ≤ v₂ → inlineChannel coeff v₂ ≤ inlineChannel coeff v₁) := by
  refine ⟨interpolate_color_zero pal hne, interpolate_color_one pal hne,
    ?_, ?_, ?_⟩
  · intro hpw v₁ v₂ h0 h12 h1
    exact interpolate_color_mono_of_pairwise pal ch hch hpw v₁ v₂ h0 h12 h1
  · intro hpw v₁ v₂ h0 h12 h1
    rw [interp_channel_eq _ _ _ hch, interp_channel_eq _ _ _ hch]
    apply pyInt_mono
    have hneg := linInterp_mono (fun i => -(ch (pal.getD i rgbZero)))
      (pal.length - 1) ?_ v₁ v₂ h0 h12 h1
    · push_cast at hneg
      simp only [neg_mul] at hneg
      linarith
    · intro i j hij hj
      simp only [neg_le_neg_iff]
      exact getD_rel_of_pairwise pal (fun p q => ch q ≤ ch p)
        (fun x => le_refl _) hpw i j hij hj
  · intro coeff hcoeff
    have hpos : (0 : ℚ) ≤ (coeff : ℚ) := by
      rcases hcoeff with rfl | rfl | rfl <;> norm_num
    refine ⟨?_, ?_, ?_⟩
    · unfold inlineChannel
      rw [show (254 - 0 * (coeff : ℚ)) = ((254 : ℤ) : ℚ) by push_cast; ring,
        pyInt_intCast]
    · unfold inlineChannel
      rw [show (254 - 1 * (coeff : ℚ)) = ((254 - coeff : ℤ) : ℚ) by push_cast; ring,
        pyInt_intCast]
    · intro v₁ v₂ h12
      unfold inlineChannel
      apply pyInt_mono
      nlinarith

/-- Witness for C3 on the concrete light-theme palette (whose green channel is
antitone across the stops) and the dark-theme palette endpoints. -/
theorem C3_interpolate_color_endpoints_monotone_witness :
    interpolate_color 0 PALETTE_LIGHT = PALETTE_LIGHT.headD rgbZero ∧
    interpolate_color 1 PALETTE_LIGHT = PALETTE_LIGHT.getLastD rgbZero ∧
    RGB.g (interpolate_color (3/4) PALETTE_LIGHT)
      ≤ RGB.g (interpolate_color (1/4) PALETTE_LIGHT) ∧
    inlineChannel 37 0 = 254 ∧ inlineChannel 37 1 = 217 := by
  have h := C3_interpolate_color_endpoints_monotone PALETTE_LIGHT (by decide)
    RGB.g (Or.inr (Or.inl rfl))
  have hin := h.2.2.2.2 37 (Or.inl rfl)
  exact ⟨h.1, h.2.1,
    h.2.2.2.1 (by decide) (1/4) (3/4) (by norm_num) (by norm_num) (by norm_num),
    hin.1, hin.2.1⟩

/-- C10. `interpolate_color` is total on its intended domain: for a palette with
at least one stop and `0 ≤ v ≤ 1`, the computed stop indices stay strictly
within the palette bounds (also at `v = 1` exactly), and each returned channel
lies between any bounds enclosing that channel over all stops (hence within
`[0, 255]` for byte-valued stops). -/
theorem C10_interpolate_color_total (pal : List RGB) (v : ℚ)
    (hne : pal ≠ []) (h0 : 0 ≤ v) (h1 : v ≤ 1) :
    lowerIdx v (pal.length - 1) < pal.length ∧
    upperIdx v (pal.length - 1) < pal.length ∧
    ∀ (ch : RGB → ℤ), (ch = RGB.r ∨ ch = RGB.g ∨ ch = RGB.b) →
      ∀ lo hi : ℤ, (∀ c ∈ pal, lo ≤ ch c ∧ ch c ≤ hi) →
        lo ≤ ch (interpolate_color v pal) ∧ ch (interpolate_color v pal) ≤ hi := by
  have hlen : 0 < pal.length := List.length_pos.mpr hne
  have hlow : lowerIdx v (pal.length - 1) ≤ pal.length - 1 := lowerIdx_le _ h0 h1
  have hup : upperIdx v (pal.length - 1) ≤ pal.length - 1 := upperIdx_le _ _
  refine ⟨by omega, by omega, ?_⟩
  intro ch hch lo hi hbound
  rw [interp_channel_eq _ _ _ hch]
  have hlmem : pal.getD (lowerIdx v (pal.length - 1)) rgbZero ∈ pal := by
    rw [List.getD_eq_getElem _ _ (by omega)]
    exact List.getElem_mem _
  have humem : pal.getD (upperIdx v (pal.length - 1)) rgbZero ∈ pal := by
    rw [List.getD_eq_getElem _ _ (by omega)]
    exact List.getElem_mem _
  obtain ⟨hA1, hA2⟩ := hbound _ hlmem
  obtain ⟨hB1, hB2⟩ := hbound _ humem
  have ht0 : 0 ≤ tFrac v (pal.length - 1) := tFrac_nonneg _ h0
  have ht1 : tFrac v (pal.length - 1) < 1 := tFrac_lt_one _ h0
  have hc := @convex_between (lo : ℚ) (hi : ℚ)
    ((ch (pal.getD (lowerIdx v (pal.length - 1)) rgbZero) : ℚ))
    ((ch (pal.getD (upperIdx v (pal.length - 1)) rgbZero) : ℚ))
    (tFrac v (pal.length - 1))
    (by exact_mod_cast hA1) (by exact_mod_cast hA2)
    (by exact_mod_cast hB1) (by exact_mod_cast hB2) ht0 (le_of_lt ht1)
  exact pyInt_between hc.1 hc.2

/-- Witness for C10 on the dark-theme palette at `v = 1/2` with byte bounds. -/
theorem C10_interpolate_color_total_witness :
    lowerIdx (1/2) (PALETTE_DARK.length - 1) < PALETTE_DARK.length ∧
    (0 : ℤ) ≤ RGB.r (interpolate_color (1/2) PALETTE_DARK) ∧
    RGB.r (interpolate_color (1/2) PALETTE_DARK) ≤ 255 := by
  have h := C10_interpolate_color_total PALETTE_DARK (1/2) (by decide)
    (by norm_num) (by norm_num)
  have hb := h.2.2 RGB.r (Or.inl rfl) 0 255 (by decide)
  exact ⟨h.1, hb.1, hb.2⟩

/-- C4, counterexample to the claim as stated. In the loader state where the
moderate artifact is absent and the combined artifact exists (and nothing
else), the unified script's boundary loader — whose candidate list is
`fast.json`, `moderate.gpkg`, `optimized.gpkg` and never consults the combined
artifact — returns `None` rather than the combined artifact. -/
theorem C4_fallback_counterexample :
    fsCombinedOnly.file moderatePath = none ∧
    fsCombinedOnly.file combinedPath = some (BFile.mk true []) ∧
    load_boundaries_unified fsCombinedOnly = none := by
  refine ⟨by decide, by decide, by decide⟩

/-- C4, amended. When the moderate artifact is absent and the combined artifact
exists, `streamlit_app.py`'s `load_boundaries` selects and returns the combined
artifact without error; the unified script's loader, however, re-implements the
fallback over a different candidate list (`fast` > `moderate` > `optimized`)
that omits the combined artifact, so the priority-fallback claim holds for the
main dashboard loader but not for every downstream script. -/
theorem C4_fallback_app_selects_combined (fs : FS) (f : BFile)
    (hmod : fs.file moderatePath = none)
    (hcomb : fs.file combinedPath = some f)
    (hcol : f.hasStateCol = true) :
    load_boundaries_app fs = some (combinedPath, contFilter f.rows) := by
  unfold load_boundaries_app
  rw [hmod, hcomb]
  simp [hcol]

/-- Witness for C4 in the combined-only filesystem state. -/
theorem C4_fallback_app_selects_combined_witness :
    load_boundaries_app fsCombinedOnly = some (combinedPath, contFilter []) :=
  C4_fallback_app_selects_combined fsCombinedOnly (BFile.mk true [])
    (by decide) (by decide) rfl

/-- C9, counterexample to the claim as stated. The unified loader serves its
pickle cache verbatim, without re-applying the continental filter: a cache
holding an Alaska row (state FIPS 02, outside the continental set) is returned
as the loader's boundary set. -/
theorem C9_continental_counterexample :
    load_boundaries_unified fsStaleCache = some ("cache", [alaskaRow]) ∧
    continentalStates.contains alaskaRow.STATEFP10 = false := by
  refine ⟨rfl, by decide⟩

/-- C9, amended. Every row returned by `streamlit_app.py`'s `load_boundaries`
has a continental-US state FIPS code (codes 01-56 minus 02 and 15): that loader
always applies the continental filter, so Alaska and Hawaii never appear. The
unified script's loader guarantees this only on a cache miss for files carrying
the `STATEFP10` column; rows served from its cache (or from a file without the
column) bypass the filter. -/
theorem C9_continental_filter (fs : FS) :
    (∀ p rows, load_boundaries_app fs = some (p, rows) →
      ∀ r ∈ rows, continentalStates.contains r.STATEFP10 = true) ∧
    (fs.cache = none →
      (∀ q f, fs.file q = some f → f.hasStateCol = true) →
      ∀ p rows, load_boundaries_unified fs = some (p, rows) →
      ∀ r ∈ rows, continentalStates.contains r.STATEFP10 = true) := by
  constructor
  · intro p rows hload r hr
    unfold load_boundaries_app at hload
    cases hmod : fs.file moderatePath with
    | some f =>
      rw [hmod] at hload
      cases hcol : f.hasStateCol with
      | false => simp [hcol] at hload
      | true =>
        simp only [hcol, if_true, Option.some.injEq, Prod.mk.injEq] at hload
        obtain ⟨rfl, rfl⟩ := hload
        have hr' : r ∈ f.rows.filter
            (fun x => continentalStates.contains x.STATEFP10) := hr
        simpa using List.of_mem_filter hr'
    | none =>
      rw [hmod] at hload
      cases hcomb : fs.file combinedPath with
      | some f =>
        rw [hcomb] at hload
        cases hcol : f.hasStateCol with
        | false => simp [hcol] at hload
        | true =>
          simp only [hcol, if_true, Option.some.injEq, Prod.mk.injEq] at hload
          obtain ⟨rfl, rfl⟩ := hload
          have hr' : r ∈ f.rows.filter
              (fun x => continentalStates.contains x.STATEFP10) := hr
          simpa using List.of_mem_filter hr'
      | none =>
        rw [hcomb] at hload
        cases hopt : fs.file optimizedPath with
        | some f =>
          rw [hopt] at hload
          cases hcol : f.hasStateCol with
          | false => simp [hcol] at hload
          | true =>
            simp only [hcol, if_true, Option.some.injEq, Prod.mk.injEq] at hload
            obtain ⟨rfl, rfl⟩ := hload
            have hr' : r ∈ f.rows.filter
                (fun x => continentalStates.contains x.STATEFP10) := hr
            simpa using List.of_mem_filter hr'
        | none => rw [hopt] at hload; cases hload
  · intro hcache hcols p rows hload r hr
    unfold load_boundaries_unified at hload
    rw [hcache] at hload
    cases hfe : firstExisting fs [fastPath, moderatePath, optimizedPath] with
    | some pf =>
      obtain ⟨q, f⟩ := pf
      rw [hfe] at hload
      simp only [Option.some.injEq, Prod.mk.injEq] at hload
      obtain ⟨rfl, rfl⟩ := hload
      have hcol : f.hasStateCol = true :=
        hcols q f (firstExisting_spec fs _ q f hfe)
      rw [hcol] at hr
      simp only [if_true] at hr
      have hr' : r ∈ f.rows.filter
          (fun x => continentalStates.contains x.STATEFP10) := hr
      simpa using List.of_mem_filter hr'
    | none => rw [hfe] at hload; cases hload

/-- Witness for C9: in the moderate-artifact state holding a California and an
Alaska row, the row the loader returns carries a continental FIPS code. -/
theorem C9_continental_filter_witness :
    continentalStates.contains (BoundaryRow.mk 600101 "06" "CA").STATEFP10 = true :=
  (C9_continental_filter fsModerateMixed).1 moderatePath
    (contFilter [BoundaryRow.mk 600101 "06" "CA", alaskaRow])
    (by decide) (BoundaryRow.mk 600101 "06" "CA") (by decide)

/-- C6. Every boundary-optimization step — simplification, hole removal (both
tiers), coordinate rounding, integer-field addition and attribute-column
pruning — and both whole optimizers preserve the number of top-level records:
each step is a per-row transformation of the frame. -/
theorem C6_optimization_preserves_record_count
    (simplifyFn : Geometry → Geometry) (rows : List PumaRow) :
    (simplifyStep simplifyFn rows).length = rows.length ∧
    (removeHolesStep rows).length = rows.length ∧
    (removeSmallHolesStep rows).length = rows.length ∧
    (roundStep 3 rows).length = rows.length ∧
    (roundStep 5 rows).length = rows.length ∧
    (pruneColumnsStep rows).length = rows.length ∧
    (addIntFieldsStep rows).length = rows.length ∧
    (create_ultra_optimized_boundaries simplifyFn rows).length = rows.length ∧
    (moderate_optimize_transform simplifyFn rows).length = rows.length := by
  simp [simplifyStep, removeHolesStep, removeSmallHolesStep, roundStep,
    pruneColumnsStep, addIntFieldsStep, create_ultra_optimized_boundaries,
    moderate_optimize_transform]

/-- C7, counterexample to the claim as stated. On a non-empty multipolygon
whose only part has area `1e-6 ≤ 1e-5` and carries an interior ring,
`remove_holes` hits its all-parts-removed fallback and returns the original
geometry — holes included: not every polygon composing the output has zero
interior rings. -/
theorem C7_remove_holes_counterexample :
    isEmptyG tinyHoledMultipolygon = false ∧
    remove_holes tinyHoledMultipolygon = tinyHoledMultipolygon ∧
    holeFree (remove_holes tinyHoledMultipolygon) = false := by
  have harea : polyArea tinyHoledPart = 199 / 200000000 := by
    norm_num [tinyHoledPart, polyArea, ringArea, shoelace, List.rotate]
    rw [abs_of_nonneg (by norm_num), abs_of_nonneg (by norm_num)]
    norm_num
  have hnot : ¬ (polyArea tinyHoledPart > 1 / 100000) := by
    rw [harea]
    norm_num
  have hrh : remove_holes tinyHoledMultipolygon = tinyHoledMultipolygon := by
    unfold remove_holes tinyHoledMultipolygon
    rw [if_neg (by simp [isEmptyG])]
    show remove_holes_multi [tinyHoledPart] = Geometry.multipolygon [tinyHoledPart]
    unfold remove_holes_multi
    rw [List.filter_cons, if_neg (by simpa using hnot), List.filter_nil]
    rfl
  exact ⟨rfl, hrh, by rw [hrh]; rfl⟩

/-- C7, amended. `remove_holes` removes all interior rings from every non-empty
polygon input; and on every multipolygon input with at least one part of area
above the `1e-5` threshold, every polygon composing the output has zero
interior rings. (When every part is at or below the threshold the function
falls back to returning the original geometry, holes and all — the case the
counterexample exhibits.) -/
theorem C7_remove_holes_amended (ext : LinearRing) (ints : List LinearRing)
    (polys : List (LinearRing × List LinearRing)) :
    (ext.isEmpty = false →
      holeFree (remove_holes (Geometry.polygon ext ints)) = true) ∧
    ((∃ p ∈ polys, polyArea p > 1 / 100000) →
      holeFree (remove_holes (Geometry.multipolygon polys)) = true) := by
  constructor
  · intro hex
    unfold remove_holes
    rw [if_neg (by simp [isEmptyG, hex])]
    rfl
  · rintro ⟨p, hp, hparea⟩
    have hpolys : polys ≠ [] := by
      intro h
      subst h
      cases hp
    have hmem : p ∈ polys.filter (fun q => decide (polyArea q > 1 / 100000)) :=
      List.mem_filter.mpr ⟨hp, decide_eq_true hparea⟩
    unfold remove_holes
    rw [if_neg (by simp [isEmptyG, List.isEmpty_iff, hpolys])]
    show holeFree (remove_holes_multi polys) = true
    unfold remove_holes_multi
    generalize hcl : (polys.filter fun q => decide (polyArea q > 1 / 100000)).map
        (fun q => (q.1, ([] : List LinearRing))) = cleaned
    have hc2 : ∀ c ∈ cleaned, c.2 = ([] : List LinearRing) := by
      intro c hc
      rw [← hcl] at hc
      obtain ⟨q, _, rfl⟩ := List.mem_map.mp hc
      rfl
    have hcne : cleaned ≠ [] := by
      rw [← hcl]
      simp only [ne_eq, List.map_eq_nil_iff]
      intro h
      rw [h] at hmem
      cases hmem
    rcases cleaned with _ | ⟨c, _ | ⟨c₂, rest⟩⟩
    · exact absurd rfl hcne
    · have := hc2 c (List.mem_singleton_self c)
      simp [holeFree, this]
    · simp only [holeFree, List.all_eq_true]
      intro x hx
      rw [hc2 x hx]
      rfl

/-- Witness for C7 (amended) at a concrete polygon with one interior ring and a
concrete multipolygon with a unit-square part. -/
theorem C7_remove_holes_amended_witness :
    holeFree (remove_holes (Geometry.polygon
      [(0, 0), (4, 0), (4, 4), (0, 4)] [[(1, 1), (2, 1), (1, 2)]])) = true ∧
    holeFree (remove_holes (Geometry.multipolygon
      [([(0, 0), (1, 0), (1, 1), (0, 1)], [[(0, 0), (1/2, 0), (0, 1/2)]])]))
      = true := by
  constructor
  · exact (C7_remove_holes_amended [(0, 0), (4, 0), (4, 4), (0, 4)]
      [[(1, 1), (2, 1), (1, 2)]] []).1 rfl
  · refine (C7_remove_holes_amended [] []
      [([(0, 0), (1, 0), (1, 1), (0, 1)], [[(0, 0), (1/2, 0), (0, 1/2)]])]).2
      ⟨([(0, 0), (1, 0), (1, 1), (0, 1)], [[(0, 0), (1/2, 0), (0, 1/2)]]),
        List.mem_singleton_self _, ?_⟩
    norm_num [polyArea, ringArea, shoelace, List.rotate]
    rw [abs_of_nonneg (by norm_num : (0 : ℚ) ≤ 1 / 4)]
    norm_num

/-- C8, counterexample to the claim as stated. Not every failure inside a
pipeline operation is caught at its top level: when the simplification step of
`moderate_optimize_boundaries` raises, no handler surrounds it (only the load
and the save are wrapped), so the exception propagates out of the operation
instead of being converted to an early `None` return. -/
theorem C8_error_handling_counterexample :
    moderate_optimize_boundaries_run modEnvSimplifyFails
      = Except.error "simplify failed" := by
  rfl

/-- C8, amended. Failures in the handler-wrapped regions are caught, printed
and converted to an early plain/`None` return: a failing load or failing save
in `moderate_optimize_boundaries`, and any failure in the query-and-process
body of `download_census_puma_data`. But the transformation steps of
`moderate_optimize_boundaries` between load and save run outside any handler,
and a failure there propagates (the counterexample). -/
theorem C8_error_handling_amended (env : ModerateEnv) (denv : DownloadEnv) :
    (∀ e, env.inputExists = true → env.load = Except.error e →
      moderate_optimize_boundaries_run env = Except.ok ()) ∧
    (∀ b b1 b2 b3 b4 e, env.inputExists = true →
      env.load = Except.ok b →
      env.simplifyOp b = Except.ok b1 →
      env.holesOp b1 = Except.ok b2 →
      env.roundOp b2 = Except.ok b3 →
      env.pruneOp b3 = Except.ok b4 →
      env.save b4 = Except.error e →
      moderate_optimize_boundaries_run env = Except.ok ()) ∧
    (∀ e, denv.makedirs = Except.ok () → denv.queryAndProcess = Except.error e →
      download_census_puma_data_run denv = Except.ok none) := by
  refine ⟨?_, ?_, ?_⟩
  · intro e hin hload
    unfold moderate_optimize_boundaries_run
    simp [hin, hload]
  · intro b b1 b2 b3 b4 e hin hload hsimp hholes hround hprune hsave
    unfold moderate_optimize_boundaries_run
    simp [hin, hload, hsimp, hholes, hround, hprune, hsave]
  · intro e hmk hq
    unfold download_census_puma_data_run
    simp [hmk, hq]

/-- Witness for C8 (amended) at the save-failing and query-failing concrete
environments. -/
theorem C8_error_handling_amended_witness :
    moderate_optimize_boundaries_run modEnvSaveFails = Except.ok () ∧
    download_census_puma_data_run dlEnvQueryFails = Except.ok none := by
  constructor
  · exact (C8_error_handling_amended modEnvSaveFails dlEnvQueryFails).2.1
      [] [] [] [] [] "save failed" rfl rfl rfl rfl rfl rfl rfl
  · exact (C8_error_handling_amended modEnvSaveFails dlEnvQueryFails).2.2
      "API rate limit" rfl rfl

end CensusViz
